import Mathlib

/-!
Verification of the logrus graylog hook (GELF dispatch hook).

This file shallowly embeds the Go sources of the repository:
  * graylog_hook.go   — hook construction, Fire, Flush, worker loop, sendEntry
  * error.go          — marshalableError and extractStackTrace
  * compression_provider.go — newCompressionPool
plus the timeout-select variant of Fire/Flush that ships in the same
repository (second document of graylog_hook_test.go, using closeChan and
Options.Timeout).

Go maps are embedded as association lists whose only observation is key
lookup (`lookupMap`); a map write `m[k] = v` becomes `mapSet`, which
prepends, so that the most recent write wins under first-match lookup,
exactly the overwrite semantics of a Go map.  Go `interface\x7b\x7d` values that
can flow through entry fields are embedded as `GoValue`.  Wall-clock data
(the GELF timestamp) and the socket address are carried opaquely or
omitted: no theorem below concerns them.
-/

namespace Graylog

/-- A stack frame of a pkg/errors stack trace: source file and line. -/
structure Frame where
  file : String
  line : Int
deriving DecidableEq, Repr

/-- A pkg/errors StackTrace: the list of frames, innermost first. -/
structure StackTrace where
  frames : List Frame
deriving DecidableEq, Repr

/-- Values carried by logrus entry fields and by the extra-field maps
(Go `interface\x7b\x7d`).  An error value (`goerr`) records its textual message
(`Error()`), the output of a custom `MarshalJSON` when the value also
implements `json.Marshaler` (`none` otherwise), and the result of walking
its cause chain for a stack trace (the summary of `extractStackTrace`,
whose loop is embedded separately as `extractLoop`).  `wrappedErr msg` is
the `marshalableError` built by `newMarshalableError` in error.go. -/
inductive GoValue where
  | str (s : String)
  | num (n : Int)
  | goerr (msg : String) (marshalJson : Option String) (trace : Option StackTrace)
  | wrappedErr (msg : String)
deriving DecidableEq, Repr

/-- Go map write `m[k] = v`, on the association-list embedding: prepend,
so the newest binding shadows older ones under first-match lookup. -/
def mapSet (m : List (String × GoValue)) (k : String) (v : GoValue) :
    List (String × GoValue) :=
  (k, v) :: m

/-- Go map read `m[k]` (with presence bit): first matching binding. -/
def lookupMap (m : List (String × GoValue)) (k : String) : Option GoValue :=
  (m.find? (fun p => p.1 == k)).map Prod.snd

/-- unicode.IsSpace for the code points bytes.TrimSpace trims in the
messages this hook sees (Latin-1 range of Go's unicode.IsSpace). -/
def goIsSpace (c : Char) : Bool :=
  c == ' ' || c == '\t' || c == '\n' || c == '\x0b' || c == '\x0c' ||
    c == '\r' || c == '\u0085' || c == '\u00A0'

/-- bytes.TrimSpace: drop leading and trailing whitespace. -/
def trimSpace (s : String) : String :=
  (((s.toList.dropWhile goIsSpace).reverse.dropWhile goIsSpace).reverse).asString

/-- The short/full message split of sendEntry (graylog_hook.go lines
174-186): trim whitespace; if the first newline sits at a positive index,
short is the text before it and full is the whole trimmed text, otherwise
short is the whole trimmed text and full is empty. -/
def shortFull (message : String) : String × String :=
  let p := trimSpace message
  match p.toList.findIdx? (fun c => c == '\n') with
  | some i => if 0 < i then (((p.toList.take i).asString), p) else (p, "")
  | none => (p, "")

/-- logrus.ErrorKey, the field name logrus stores WithError values under. -/
def errorKey : String := "error"

/-- stackTraceKey (graylog_hook.go line 18). -/
def stackTraceKey : String := "_stacktrace"

/-- fmt.Sprintf "_%s" k: the underscore form under which sendEntry files
every extra field. -/
def underscore (k : String) : String := "_" ++ k

/-- The `v.(error)` capability check: entry-field error values are the
`goerr` embeddings.  (`marshalableError` exposes no `Error()` method, so
`wrappedErr` is not a Go error.) -/
def isError : GoValue → Bool
  | .goerr _ _ _ => true
  | _ => false

/-- The `v.(json.Marshaler)` capability check: a `goerr` with a custom
MarshalJSON output, or the marshalableError wrapper itself. -/
def isMarshaler : GoValue → Bool
  | .goerr _ (some _) _ => true
  | .wrappedErr _ => true
  | _ => false

/-- `Error()` of an error value (used only under `isError`). -/
def errMsg : GoValue → String
  | .goerr m _ _ => m
  | .wrappedErr m => m
  | _ => ""

/-- Result of `extractStackTrace(asError)` on a field value: the deepest
stack trace of the error's cause chain, `none` for non-errors (where
`asError` is nil).  The chain walk itself is embedded as `extractLoop`
below; this is its summarised outcome carried on the value. -/
def errTrace : GoValue → Option StackTrace
  | .goerr _ _ tr => tr
  | _ => none

/-- Modelled from the spec: `extractFileAndLine` is declared in the
repository's gelf writer source, which is not under src/.  Per spec 4.5
step 6 it yields the innermost frame of the trace — the error's creation
site — and the zero values ("", 0) when the trace is empty. -/
def extractFileAndLine (st : StackTrace) : String × Int :=
  match st.frames with
  | f :: _ => (f.file, f.line)
  | [] => ("", 0)

/-- fmt.Sprintf "%+v" of a stack trace: an opaque textual rendering; the
claims only observe under which key it is stored. -/
def formatTrace (st : StackTrace) : String :=
  String.intercalate "\n" (st.frames.map (fun f => f.file ++ ":" ++ toString f.line))

/-- The mutable state threaded through sendEntry's data loop: the extra
map under construction plus entry.file/entry.line, which the stack-trace
branch may overwrite. -/
structure RenderState where
  extra : List (String × GoValue)
  file : String
  line : Int
deriving Repr

/-- One iteration of the `for k, v := range entry.Data` loop of sendEntry
(graylog_hook.go lines 197-220).  `b` is the map the code consults there
(the hook's internal `blacklist` field). -/
def dataStep (b : String → Bool) (st : RenderState) (kv : String × GoValue) :
    RenderState :=
  if b kv.1 then st
  else
    let extraK := underscore kv.1
    if kv.1 = errorKey then
      let extra1 :=
        if isError kv.2 && !(isMarshaler kv.2) then
          mapSet st.extra extraK (.wrappedErr (errMsg kv.2))
        else
          mapSet st.extra extraK kv.2
      match errTrace kv.2 with
      | some tr =>
        let extra2 := mapSet extra1 stackTraceKey (.str (formatTrace tr))
        let fl := extractFileAndLine tr
        let keep : Bool := fl.1 != "" && fl.2 != 0
        ⟨extra2, if keep then fl.1 else st.file, if keep then fl.2 else st.line⟩
      | none => ⟨extra1, st.file, st.line⟩
    else ⟨mapSet st.extra extraK kv.2, st.file, st.line⟩

/-- The extra-map construction of sendEntry (lines 191-220): start from
the empty map, merge each static extra field under its underscore form,
then run the per-event data loop. -/
def renderExtra (b : String → Bool) (staticExtra data : List (String × GoValue))
    (file0 : String) (line0 : Int) : RenderState :=
  let st0 : RenderState :=
    ⟨staticExtra.foldl (fun m kv => mapSet m (underscore kv.1) kv.2) [], file0, line0⟩
  data.foldl (dataStep b) st0

/-- graylogEntry: the cloned logrus entry plus the caller file and line
captured in Fire (graylog_hook.go lines 50-54). -/
structure GEntry where
  message : String
  data : List (String × GoValue)
  level : Int
  file : String
  line : Int
deriving DecidableEq, Repr

/-- The GELF message assembled by sendEntry (lines 222-232).  The wall
clock timestamp field (TimeUnix, read from time.Now()) is omitted: no
claim concerns it. -/
structure Message where
  version : String
  host : String
  short : String
  full : String
  level : Int
  file : String
  line : Int
  extra : List (String × GoValue)
deriving DecidableEq, Repr

/-- The message-building part of sendEntry (graylog_hook.go lines
174-232) as a pure function of the hook configuration and the entry. -/
def renderMessage (host : String) (b : String → Bool)
    (staticExtra : List (String × GoValue)) (e : GEntry) : Message :=
  let sf := shortFull e.message
  let rs := renderExtra b staticExtra e.data e.file e.line
  ⟨"1.1", host, sf.1, sf.2, e.level + 2, rs.file, rs.line, rs.extra⟩

/-- CompressType constants (compression_provider.go lines 16-23).  The
Go type is an int, so unknown values are representable. -/
def CompressGzip : Int := 0

/-- CompressZlib (compression_provider.go line 20). -/
def CompressZlib : Int := 1

/-- NoCompress (compression_provider.go line 22). -/
def NoCompress : Int := 2

/-- The compression pool record (compression_provider.go lines 31-35);
the sync.Pool of reusable writers has no observable state relevant to
the claims and is omitted. -/
structure compressionPool where
  compressType : Int
  compressionLevel : Int
deriving DecidableEq, Repr

/-- newCompressionPool (compression_provider.go lines 37-69): any value
other than the three known variants is rejected with an error; known
variants yield the pool. -/
def newCompressionPool (t : Int) (level : Int) : Except String compressionPool :=
  if t = CompressGzip ∨ t = CompressZlib ∨ t = NoCompress then
    .ok ⟨t, level⟩
  else
    .error ("unknown compression type " ++ toString t)

/-- Modelled from the spec: the gelf Writer (NewWriter, WriteMessage)
lives in the repository's gelf writer source, which is not under src/.
Spec 4.1 and 7 make an unknown compression variant a fatal error at
construction, so NewWriter validates the variant through the compression
pool; `writeErr` is the transport-failure oracle — WriteMessage returns
it (spec 4.2: any write error is returned to the caller immediately, no
retry). -/
structure Writer where
  addr : String
  pool : compressionPool
  writeErr : Option String
deriving DecidableEq, Repr

/-- Modelled from the spec: writer construction validates the
compression variant (spec 4.1/7) and otherwise succeeds. -/
def NewWriter (addr : String) (t level : Int) : Except String Writer :=
  (newCompressionPool t level).map (fun p => ⟨addr, p, none⟩)

/-- Options (graylog_hook.go lines 36-44). -/
structure Options where
  extra : List (String × GoValue)
  host : String
  level : Int
  blacklist : String → Bool
  bufSize : Nat
  compressType : Int
  compressLevel : Int

/-- The hook record (graylog_hook.go lines 25-33).  `blacklist` is the
internal field sendEntry consults; `synchronous` selects the Fire path.
The channel/waitgroup state is carried separately in `HookState`. -/
structure Hook where
  options : Options
  gelfLogger : Option Writer
  synchronous : Bool
  blacklist : String → Bool

/-- getDefaultGraylogOptions (lines 68-83); the hostname lookup result
is a parameter.  logrus.DebugLevel is 5 and flate.BestSpeed is 1. -/
def getDefaultGraylogOptions (host : String) : Options :=
  { extra := [], host := host, level := 5, blacklist := fun _ => false,
    bufSize := 8192, compressType := CompressGzip, compressLevel := 1 }

/-- NewGraylogHookEx (lines 86-106): apply the option functions to the
defaults, build the writer; on writer failure log one diagnostic and
continue with a nil writer — the hook is returned either way.  The
second component collects the diagnostics logged during construction.
The constructor never assigns the hook's internal `blacklist` field (the
method that would is commented out, lines 250-258), so it keeps the Go
zero value: a nil map, on which every lookup is false. -/
def NewGraylogHookEx (addr : String) (isAsync : Bool)
    (ops : List (Options → Options)) (host : String) : Hook × List String :=
  let logOption := ops.foldl (fun o f => f o) (getDefaultGraylogOptions host)
  match NewWriter addr logOption.compressType logOption.compressLevel with
  | .error _ =>
      (⟨logOption, none, !isAsync, fun _ => false⟩, ["Can't create Gelf logger"])
  | .ok g => (⟨logOption, some g, !isAsync, fun _ => false⟩, [])

/-- NewGraylogHook (lines 57-59): the synchronous constructor. -/
def NewGraylogHook (addr : String) (ops : List (Options → Options))
    (host : String) : Hook × List String :=
  NewGraylogHookEx addr false ops host

/-- NewAsyncGraylogHook (lines 64-66): the asynchronous constructor. -/
def NewAsyncGraylogHook (addr : String) (ops : List (Options → Options))
    (host : String) : Hook × List String :=
  NewGraylogHookEx addr true ops host

/-- Outcome of sendEntry (lines 167-237): with a nil writer it prints a
diagnostic and drops the entry; otherwise it builds the message and
writes it, printing the write error if any.  sendEntry returns nothing
to its caller in every path. -/
inductive SendOutcome where
  | droppedNoWriter (diag : String)
  | delivered (m : Message)
  | writeFailed (m : Message) (diag : String)
deriving DecidableEq, Repr

/-- sendEntry (lines 167-237). -/
def sendEntry (hook : Hook) (e : GEntry) : SendOutcome :=
  match hook.gelfLogger with
  | none => .droppedNoWriter "Can't connect to Graylog"
  | some w =>
      let m := renderMessage hook.options.host hook.blacklist hook.options.extra e
      match w.writeErr with
      | some err => .writeFailed m err
      | none => .delivered m

/-- The extra map of a sendEntry outcome (empty when no message was
rendered). -/
def outcomeExtra : SendOutcome → List (String × GoValue)
  | .droppedNoWriter _ => []
  | .delivered m => m.extra
  | .writeFailed m _ => m.extra

/-- json.Marshal of a plain string that needs no escape sequences (every
message string in this development): wrap it in quotes. -/
def jsonStringLit (s : String) : String := "\"" ++ s ++ "\""

/-- encoding/json on the embedded values: strings and numbers as usual;
an error value with a custom MarshalJSON yields that output; an error
value without one marshals by struct rules, which for the stock error
types (unexported fields only) yields the empty JSON object;
marshalableError's MarshalJSON (error.go lines 21-23) returns
json.Marshal of the wrapped error's Error() text. -/
def jsonOfValue : GoValue → String
  | .str s => jsonStringLit s
  | .num n => toString n
  | .goerr _ (some j) _ => j
  | .goerr _ none _ => "\x7b\x7d"
  | .wrappedErr m => jsonStringLit m

/-- The clone loop of Fire (lines 119-122): `newData[k] = v` for every
binding of the source map, into a freshly made map. -/
def cloneAssoc (m : List (String × GoValue)) : List (String × GoValue) :=
  m.foldl (fun acc kv => mapSet acc kv.1 kv.2) []

/-- The hook.buf channel as Fire, Flush and the worker observe it:
buffered contents, capacity, and whether close(hook.buf) happened. -/
structure HookState where
  queue : List GEntry
  capacity : Nat
  bufClosed : Bool
deriving DecidableEq, Repr

/-- What one call to Fire does (graylog_hook.go lines 111-141): the
synchronous path runs sendEntry inline; the asynchronous path sends on
hook.buf — a send on a closed channel panics, a send with free capacity
enqueues, and a send on a full open channel blocks with no bound (this
Fire has no timeout case). -/
inductive FireOutcome where
  | sentSync (r : SendOutcome)
  | enqueued
  | panicked
  | blockedUntilSpace
deriving DecidableEq, Repr

/-- Result of Fire: the outcome, the channel state afterwards, and the
value Fire returns — `some r` when Fire returns `r`, `none` when it
never returns normally (the panic path). -/
structure FireResult where
  outcome : FireOutcome
  state : HookState
  ret : Option (Option String)
deriving DecidableEq, Repr

/-- Fire (lines 111-141): clone the entry data (the caller file/line
captured on the calling stack are already inside `e`), then dispatch.
Every returning path returns nil. -/
def fire (hook : Hook) (st : HookState) (e : GEntry) : FireResult :=
  let ge : GEntry := { e with data := cloneAssoc e.data }
  if hook.synchronous then
    ⟨.sentSync (sendEntry hook ge), st, some none⟩
  else if st.bufClosed then
    ⟨.panicked, st, none⟩
  else if st.queue.length < st.capacity then
    ⟨.enqueued, { st with queue := st.queue ++ [ge] }, some none⟩
  else
    ⟨.blockedUntilSpace, st, some none⟩

/-- Flush (lines 145-151): take the write lock, wait until the worker
has consumed and processed every enqueued entry, then close the
channel.  When it returns the queue is empty and the channel closed. -/
def flush (st : HookState) : HookState :=
  { st with queue := [], bufClosed := true }

/-- The worker loop `fire()` (lines 154-164): receive until the channel
closes, running sendEntry on each entry in FIFO order; an entry is
processed whatever the outcome of the previous ones. -/
def workerRun (hook : Hook) : List GEntry → List SendOutcome
  | [] => []
  | e :: rest => sendEntry hook e :: workerRun hook rest

/-- The channel state of the timeout-variant hook (second document of
graylog_hook_test.go, lines 493-499): closeChan and buf. -/
structure HookStateT where
  queue : List GEntry
  capacity : Nat
  closeClosed : Bool
  bufClosed : Bool
deriving DecidableEq, Repr

/-- Outcome of the timeout-variant Fire's select (graylog_hook_test.go
lines 557-563): the closeChan case prints the dropped entry; the send
case enqueues after waiting `waited` ms for space; the time.After case
prints a timeout diagnostic and drops; a send on the closed buf channel
panics. -/
inductive FireOutcomeT where
  | droppedClosed
  | enqueued (waited : Nat)
  | droppedTimeout
  | panicked
deriving DecidableEq, Repr

/-- The timeout-variant Fire (graylog_hook_test.go lines 537-566).
`freeAt` abstracts the consumer: the time in ms at which the worker next
frees a slot of the full queue (`none` when it never does).  The select
takes the closeChan case when the hook is draining, otherwise the send
as soon as capacity allows and no later than the timeout, otherwise the
time.After case once the timeout elapses. -/
def fireT (st : HookStateT) (timeout : Nat) (freeAt : Option Nat) (e : GEntry) :
    FireOutcomeT × HookStateT :=
  if st.closeClosed then (.droppedClosed, st)
  else if st.bufClosed then (.panicked, st)
  else if st.queue.length < st.capacity then
    (.enqueued 0, { st with queue := st.queue ++ [e] })
  else
    match freeAt with
    | some t =>
        if t ≤ timeout then
          (.enqueued t, { st with queue := st.queue.drop 1 ++ [e] })
        else (.droppedTimeout, st)
    | none => (.droppedTimeout, st)

/-- How long the calling goroutine is blocked inside the select, in
ms, for each outcome. -/
def waitTimeT (timeout : Nat) : FireOutcomeT → Nat
  | .droppedClosed => 0
  | .enqueued w => w
  | .droppedTimeout => timeout
  | .panicked => 0

/-- The diagnostic the timeout case prints (line 562); the other cases
report no timeout error. -/
def timeoutDiag : FireOutcomeT → Option String
  | .droppedTimeout => some "GaylogHook: timeout , fail to process log entry"
  | _ => none

/-- A heap of Go maps, address → contents: models the aliasing of
entry.Data, which Fire must copy rather than share (lines 119-131). -/
def Heap : Type := Nat → List (String × GoValue)

/-- Write a whole map value at an address (a mutation of that map). -/
def heapSet (h : Heap) (a : Nat) (m : List (String × GoValue)) : Heap :=
  fun x => if x = a then m else h x

/-- Fire's clone step on the heap (lines 119-131): allocate a fresh
address and copy every binding of the caller's map into it; the enqueued
entry holds the fresh address. -/
def fireCloneHeap (h : Heap) (src fresh : Nat) : Heap × Nat :=
  (heapSet h fresh (cloneAssoc (h src)), fresh)

/-- One error value of a causal chain as extractStackTrace observes it:
whether it offers the stackTracer capability, and which error its Cause
method yields (`none` when it is no causer).  Values refer to each other
by index, so cyclic cause chains are representable. -/
structure ErrNode where
  hasStack : Bool
  cause : Option Nat
deriving DecidableEq, Repr

/-- The loop of extractStackTrace (error.go lines 33-52) with an
explicit iteration budget: remember the latest stackTracer seen, follow
Cause while a causer capability is present, break when none is.  The Go
loop has no bound, so a result of `none` at every finite budget is
non-termination.  errors.As is modelled as the capability of the current
error value. -/
def extractLoop (w : List ErrNode) : Nat → Option Nat → Nat → Option (Option Nat)
  | _, _, 0 => none
  | err, tracer, fuel+1 =>
      let n := w.getD err ⟨false, none⟩
      let tracer1 := if n.hasStack then some err else tracer
      match n.cause with
      | some c => extractLoop w c tracer1 fuel
      | none => some tracer1

/-- extractStackTrace's chain walk from `err` under iteration budget
`fuel`: `some result` when the loop breaks within the budget (`result`
is the tracer found, if any), `none` when the budget is exhausted. -/
def extractStackTraceFuel (w : List ErrNode) (err : Nat) (fuel : Nat) :
    Option (Option Nat) :=
  extractLoop w err none fuel

/-- The Cause step: which error the current one unwraps to. -/
def causeStep (w : List ErrNode) (e : Nat) : Option Nat :=
  (w.getD e ⟨false, none⟩).cause

/-- The cause chain from `e` ends (reaches an error with no causer
capability) within `n` Cause steps. -/
def endsWithin (w : List ErrNode) : Nat → Nat → Bool
  | e, 0 => (causeStep w e).isNone
  | e, n+1 =>
      match causeStep w e with
      | none => true
      | some c => endsWithin w c n

/-- A two-element cyclic cause chain: each error's Cause is the other,
neither carries a stack trace. -/
def cyclicWorld : List ErrNode := [⟨false, some 1⟩, ⟨false, some 0⟩]

end Graylog

namespace Graylog

theorem lookup_mapSet_self (m : List (String × GoValue)) (k : String) (v : GoValue) :
    lookupMap (mapSet m k v) k = some v := by
  unfold lookupMap mapSet
  rw [List.find?_cons_of_pos _ (by simp)]
  rfl

theorem lookup_mapSet_ne (m : List (String × GoValue)) (k k' : String) (v : GoValue)
    (h : k' ≠ k) : lookupMap (mapSet m k v) k' = lookupMap m k' := by
  unfold lookupMap mapSet
  rw [List.find?_cons_of_neg _ (by simp [beq_iff_eq]; exact fun hh => h hh.symm)]

theorem underscore_inj {k k' : String} (h : underscore k = underscore k') : k = k' := by
  unfold underscore at h
  have hd := congrArg String.data h
  simp [String.data_append] at hd
  exact String.ext hd

theorem underscore_ne_stackTraceKey {k : String} (h : k ≠ "stacktrace") :
    underscore k ≠ stackTraceKey := by
  intro he
  have hst : stackTraceKey = underscore "stacktrace" := by decide
  exact h (underscore_inj (hst ▸ he))

/-- A dataStep iteration leaves the binding of any key it does not write
untouched: it writes only the underscore form of its own field name and,
for an error field with a trace, the stack-trace key. -/
theorem dataStep_lookup_preserve (b : String → Bool) (st : RenderState)
    (kv : String × GoValue) (t : String)
    (h1 : b kv.1 = true ∨ underscore kv.1 ≠ t)
    (h2 : b kv.1 = true ∨ kv.1 ≠ errorKey ∨ errTrace kv.2 = none ∨ t ≠ stackTraceKey) :
    lookupMap (dataStep b st kv).extra t = lookupMap st.extra t := by
  unfold dataStep
  by_cases hb : b kv.1 = true
  · simp [hb]
  · have hu : underscore kv.1 ≠ t := h1.resolve_left hb
    have hb' : b kv.1 = false := by
      cases hbv : b kv.1 with
      | true => exact absurd hbv hb
      | false => rfl
    by_cases hk : kv.1 = errorKey
    · have h2' : errTrace kv.2 = none ∨ t ≠ stackTraceKey :=
        (h2.resolve_left hb).resolve_left (fun hne => hne hk)
      have hbe : b errorKey = false := hk ▸ hb'
      have hue : underscore errorKey ≠ t := hk ▸ hu
      cases htr : errTrace kv.2 with
      | none =>
          by_cases hm : isError kv.2 && !(isMarshaler kv.2)
          · simp [hk, hbe, htr, hm, lookup_mapSet_ne _ _ _ _ (Ne.symm hue)]
          · simp [hk, hbe, htr, hm, lookup_mapSet_ne _ _ _ _ (Ne.symm hue)]
      | some tr =>
          have hst : t ≠ stackTraceKey := by
            cases h2' with
            | inl hnone => rw [htr] at hnone; exact absurd hnone (by simp)
            | inr hts => exact hts
          by_cases hm : isError kv.2 && !(isMarshaler kv.2)
          · simp [hk, hbe, htr, hm, lookup_mapSet_ne _ _ _ _ hst,
              lookup_mapSet_ne _ _ _ _ (Ne.symm hue)]
          · simp [hk, hbe, htr, hm, lookup_mapSet_ne _ _ _ _ hst,
              lookup_mapSet_ne _ _ _ _ (Ne.symm hue)]
    · simp [hb', hk, lookup_mapSet_ne _ _ _ _ (Ne.symm hu)]

/-- Folding the data loop over entries none of which writes `t` leaves
the binding of `t` unchanged. -/
theorem foldl_dataStep_preserve (b : String → Bool) (l : List (String × GoValue))
    (st : RenderState) (t : String)
    (h : ∀ kv ∈ l, (b kv.1 = true ∨ underscore kv.1 ≠ t) ∧
      (b kv.1 = true ∨ kv.1 ≠ errorKey ∨ errTrace kv.2 = none ∨ t ≠ stackTraceKey)) :
    lookupMap ((l.foldl (dataStep b) st).extra) t = lookupMap st.extra t := by
  induction l generalizing st with
  | nil => rfl
  | cons kv rest ih =>
      rw [List.foldl_cons, ih _ (fun p hp => h p (List.mem_cons_of_mem _ hp)),
        dataStep_lookup_preserve b st kv t (h kv (List.mem_cons_self _ _)).1
          (h kv (List.mem_cons_self _ _)).2]

/-- The static-extra merge loop writes only underscore forms of the
static field names. -/
theorem foldl_static_preserve (l : List (String × GoValue))
    (m : List (String × GoValue)) (t : String)
    (h : ∀ kv ∈ l, underscore kv.1 ≠ t) :
    lookupMap (l.foldl (fun m kv => mapSet m (underscore kv.1) kv.2) m) t =
      lookupMap m t := by
  induction l generalizing m with
  | nil => rfl
  | cons kv rest ih =>
      rw [List.foldl_cons, ih _ (fun p hp => h p (List.mem_cons_of_mem _ hp)),
        lookup_mapSet_ne _ _ _ _ (Ne.symm (h kv (List.mem_cons_self _ _)))]

/-- A non-blacklisted, non-error field writes exactly its value under its
underscore form. -/
theorem dataStep_lookup_self (b : String → Bool) (st : RenderState)
    (k : String) (v : GoValue) (hb : b k = false) (hk : k ≠ errorKey) :
    lookupMap (dataStep b st (k, v)).extra (underscore k) = some v := by
  unfold dataStep
  simp [hb, hk, lookup_mapSet_self]

/-- A key bound by no entry of the map looks up to nothing. -/
theorem lookupMap_eq_none (m : List (String × GoValue)) (k : String)
    (h : ∀ kv ∈ m, kv.1 ≠ k) : lookupMap m k = none := by
  unfold lookupMap
  rw [List.find?_eq_none.2 ?_]
  · rfl
  · intro x hx
    simp only [beq_iff_eq]
    exact h x hx

/-- Cons equation for the lookup observation. -/
theorem lookupMap_cons (kv : String × GoValue) (m : List (String × GoValue))
    (k : String) :
    lookupMap (kv :: m) k = if kv.1 = k then some kv.2 else lookupMap m k := by
  unfold lookupMap
  by_cases h : kv.1 = k
  · rw [List.find?_cons_of_pos _ (by simp [h])]
    simp [h]
  · rw [List.find?_cons_of_neg _ (by simp [h])]
    simp [h]

/-- Rebuilding a map from bindings that do not mention `k` keeps the
accumulator's binding of `k`. -/
theorem lookup_foldl_mapSet_of_none (l : List (String × GoValue)) :
    ∀ acc : List (String × GoValue), ∀ k : String, lookupMap l k = none →
    lookupMap (l.foldl (fun a kv => mapSet a kv.1 kv.2) acc) k = lookupMap acc k := by
  induction l with
  | nil => intro acc k _; rfl
  | cons kv rest ih =>
      intro acc k h
      rw [lookupMap_cons] at h
      by_cases hk : kv.1 = k
      · rw [if_pos hk] at h
        cases h
      · rw [if_neg hk] at h
        rw [List.foldl_cons, ih _ k h, lookup_mapSet_ne _ _ _ _ (fun he => hk he.symm)]

/-- Rebuilding a map with distinct keys reproduces each binding. -/
theorem lookup_foldl_mapSet_of_some (l : List (String × GoValue)) :
    ∀ acc : List (String × GoValue), ∀ k : String, ∀ v : GoValue,
    (l.map Prod.fst).Nodup → lookupMap l k = some v →
    lookupMap (l.foldl (fun a kv => mapSet a kv.1 kv.2) acc) k = some v := by
  induction l with
  | nil => intro acc k v _ h; cases h
  | cons kv rest ih =>
      intro acc k v hnodup h
      obtain ⟨k0, v0⟩ := kv
      rw [lookupMap_cons] at h
      rw [List.foldl_cons]
      by_cases hk : k0 = k
      · rw [if_pos hk] at h
        have hrest : lookupMap rest k = none := by
          apply lookupMap_eq_none
          intro p hp hpk
          have hmem : k0 ∈ rest.map Prod.fst := by
            rw [hk, ← hpk]
            exact List.mem_map_of_mem Prod.fst hp
          exact (List.nodup_cons.1 (by simpa using hnodup)).1 hmem
        rw [lookup_foldl_mapSet_of_none rest _ k hrest]
        have hv : v0 = v := by simpa using h
        subst hv
        subst hk
        simpa using lookup_mapSet_self acc k0 v0
      · rw [if_neg hk] at h
        exact ih _ k v (by simpa using (List.nodup_cons.1 (by simpa using hnodup)).2) h

/-- Fire's clone loop builds a map with exactly the bindings of the
source map. -/
theorem lookup_cloneAssoc (m : List (String × GoValue)) (k : String)
    (hnodup : (m.map Prod.fst).Nodup) :
    lookupMap (cloneAssoc m) k = lookupMap m k := by
  unfold cloneAssoc
  cases h : lookupMap m k with
  | none => rw [lookup_foldl_mapSet_of_none m [] k h]; rfl
  | some v => exact lookup_foldl_mapSet_of_some m [] k v hnodup h

/-- Split the data loop around one entry: once the later entries write
neither the target key nor (for the target) the stack-trace key, the
binding of the target is the one this entry leaves. -/
theorem foldl_dataStep_split (b : String → Bool) (l1 l2 : List (String × GoValue))
    (st : RenderState) (kv : String × GoValue) (t : String)
    (h : ∀ p ∈ l2, (b p.1 = true ∨ underscore p.1 ≠ t) ∧
      (b p.1 = true ∨ p.1 ≠ errorKey ∨ errTrace p.2 = none ∨ t ≠ stackTraceKey)) :
    lookupMap (((l1 ++ kv :: l2).foldl (dataStep b) st).extra) t =
      lookupMap ((dataStep b (l1.foldl (dataStep b) st) kv).extra) t := by
  rw [List.foldl_append, List.foldl_cons, foldl_dataStep_preserve b l2 _ t h]

/-- The error-field branch of the data loop (graylog_hook.go lines
200-215) on a non-Marshaler error value: the underscore error key is
bound to the marshalable wrapper. -/
theorem dataStep_error_lookup (b : String → Bool) (st : RenderState)
    (msg : String) (tr : Option StackTrace) (hb : b errorKey = false) :
    lookupMap (dataStep b st (errorKey, .goerr msg none tr)).extra (underscore errorKey)
      = some (.wrappedErr msg) := by
  have hne : underscore errorKey ≠ stackTraceKey := by decide
  unfold dataStep
  cases tr with
  | none =>
      simp [hb, isError, isMarshaler, errMsg, errTrace, lookup_mapSet_self]
  | some tr0 =>
      simp [hb, isError, isMarshaler, errMsg, errTrace,
        lookup_mapSet_ne _ _ _ _ hne, lookup_mapSet_self]

end Graylog

/-- C9: rendering the text "line one\nline two" yields short_message
"line one" and full_message "line one\nline two", and rendering "single"
yields short_message "single" and empty full_message. -/
theorem shortFull_spec_examples :
    Graylog.shortFull "line one\nline two" = ("line one", "line one\nline two") ∧
    Graylog.shortFull "single" = ("single", "") := by
  constructor <;> decide

namespace Graylog

/-- C1 (counterexample): on an asynchronous hook built by the
constructor, a Fire after Flush has returned does not fail fast with a
reported error — it panics (send on the closed buf channel) and never
returns at all. -/
theorem fire_after_flush_panics_cex :
    (fire (NewGraylogHookEx "127.0.0.1:12201" true [] "host").1
        (flush ⟨[], 8192, false⟩) ⟨"msg", [], 4, "f.go", 3⟩).outcome
      = FireOutcome.panicked ∧
    (fire (NewGraylogHookEx "127.0.0.1:12201" true [] "host").1
        (flush ⟨[], 8192, false⟩) ⟨"msg", [], 4, "f.go", 3⟩).ret = none := by
  constructor <;> decide

/-- C1 (amended): once Flush has returned the queue is empty and a
subsequent Fire on an asynchronous hook neither blocks nor enqueues —
the queue stays empty — but it panics on the closed channel instead of
failing fast with a reported error. -/
theorem fire_after_flush_empty_queue_panics (hook : Hook) (st : HookState)
    (e : GEntry) (hasync : hook.synchronous = false) :
    (flush st).queue = [] ∧
    (fire hook (flush st) e).outcome = FireOutcome.panicked ∧
    (fire hook (flush st) e).ret = none ∧
    (fire hook (flush st) e).state.queue = [] := by
  unfold fire flush
  simp [hasync]

/-- C1 (witness): the amended statement at a concrete asynchronous
hook, channel state and entry. -/
theorem fire_after_flush_empty_queue_panics_witness :
    (flush ⟨[⟨"queued", [], 4, "", 0⟩], 2, false⟩).queue = [] ∧
    (fire (NewAsyncGraylogHook "127.0.0.1:12201" [] "host").1
        (flush ⟨[⟨"queued", [], 4, "", 0⟩], 2, false⟩) ⟨"late", [], 4, "", 0⟩).outcome
      = FireOutcome.panicked ∧
    (fire (NewAsyncGraylogHook "127.0.0.1:12201" [] "host").1
        (flush ⟨[⟨"queued", [], 4, "", 0⟩], 2, false⟩) ⟨"late", [], 4, "", 0⟩).ret = none ∧
    (fire (NewAsyncGraylogHook "127.0.0.1:12201" [] "host").1
        (flush ⟨[⟨"queued", [], 4, "", 0⟩], 2, false⟩) ⟨"late", [], 4, "", 0⟩).state.queue
      = [] :=
  fire_after_flush_empty_queue_panics
    (NewAsyncGraylogHook "127.0.0.1:12201" [] "host").1
    ⟨[⟨"queued", [], 4, "", 0⟩], 2, false⟩ ⟨"late", [], 4, "", 0⟩ (by decide)

/-- C2: on the timeout-variant Fire (graylog_hook_test.go lines
537-566), with the hook open and the queue within capacity, the calling
goroutine waits at most the configured timeout; when the queue is full
and no slot frees within the timeout, the entry is dropped, the queue is
unchanged and the timeout diagnostic is reported; and the queue never
exceeds its capacity. -/
theorem fireT_wait_bounded_drop_on_timeout (st : HookStateT) (timeout : Nat)
    (freeAt : Option Nat) (e : GEntry)
    (hopen : st.closeClosed = false) (hbuf : st.bufClosed = false)
    (hcap : st.queue.length ≤ st.capacity) (hpos : 0 < st.capacity) :
    waitTimeT timeout (fireT st timeout freeAt e).1 ≤ timeout ∧
    (fireT st timeout freeAt e).2.queue.length ≤ st.capacity ∧
    (st.queue.length = st.capacity →
      (∀ t0, freeAt = some t0 → timeout < t0 →
        (fireT st timeout freeAt e).1 = FireOutcomeT.droppedTimeout ∧
        (fireT st timeout freeAt e).2 = st ∧
        timeoutDiag (fireT st timeout freeAt e).1 =
          some "GaylogHook: timeout , fail to process log entry") ∧
      (freeAt = none →
        (fireT st timeout freeAt e).1 = FireOutcomeT.droppedTimeout ∧
        (fireT st timeout freeAt e).2 = st ∧
        timeoutDiag (fireT st timeout freeAt e).1 =
          some "GaylogHook: timeout , fail to process log entry")) := by
  by_cases hlt : st.queue.length < st.capacity
  · have hfe : fireT st timeout freeAt e =
        (.enqueued 0, { st with queue := st.queue ++ [e] }) := by
      unfold fireT
      simp [hopen, hbuf, hlt]
    rw [hfe]
    refine ⟨by simp [waitTimeT], ?_, fun hfull => absurd hlt (by omega)⟩
    simp only [List.length_append, List.length_singleton]
    omega
  · have heq : st.queue.length = st.capacity := le_antisymm hcap (le_of_not_lt hlt)
    cases freeAt with
    | none =>
        have hfe : fireT st timeout none e = (.droppedTimeout, st) := by
          unfold fireT
          simp [hopen, hbuf, hlt]
        rw [hfe]
        exact ⟨by simp [waitTimeT], hcap,
          fun _ => ⟨fun t0 habs => (by cases habs), fun _ => ⟨rfl, rfl, rfl⟩⟩⟩
    | some t0 =>
        by_cases ht : t0 ≤ timeout
        · have hfe : fireT st timeout (some t0) e =
              (.enqueued t0, { st with queue := st.queue.drop 1 ++ [e] }) := by
            unfold fireT
            simp [hopen, hbuf, hlt, ht]
          rw [hfe]
          refine ⟨ht, ?_, fun _ => ⟨fun t1 hsome hlate => ?_, fun habs => (by cases habs)⟩⟩
          · simp only [List.length_append, List.length_singleton, List.length_drop]
            omega
          · cases hsome
            exact absurd ht (by omega)
        · have hfe : fireT st timeout (some t0) e = (.droppedTimeout, st) := by
            unfold fireT
            simp [hopen, hbuf, hlt, ht]
          rw [hfe]
          exact ⟨by simp [waitTimeT], hcap,
            fun _ => ⟨fun t1 hsome hlate => ⟨rfl, rfl, rfl⟩, fun habs => (by cases habs)⟩⟩

/-- C2 (witness): a full one-slot queue with a 500 ms timeout and a
consumer that never frees a slot. -/
theorem fireT_wait_bounded_drop_on_timeout_witness :
    waitTimeT 500 (fireT ⟨[⟨"q", [], 4, "", 0⟩], 1, false, false⟩ 500 none
      ⟨"extra", [], 4, "", 0⟩).1 ≤ 500 ∧
    (fireT ⟨[⟨"q", [], 4, "", 0⟩], 1, false, false⟩ 500 none
      ⟨"extra", [], 4, "", 0⟩).2.queue.length ≤ 1 ∧
    (([⟨"q", [], 4, "", 0⟩] : List GEntry).length = 1 →
      (∀ t0, (none : Option Nat) = some t0 → 500 < t0 →
        (fireT ⟨[⟨"q", [], 4, "", 0⟩], 1, false, false⟩ 500 none
          ⟨"extra", [], 4, "", 0⟩).1 = FireOutcomeT.droppedTimeout ∧
        (fireT ⟨[⟨"q", [], 4, "", 0⟩], 1, false, false⟩ 500 none
          ⟨"extra", [], 4, "", 0⟩).2 = ⟨[⟨"q", [], 4, "", 0⟩], 1, false, false⟩ ∧
        timeoutDiag (fireT ⟨[⟨"q", [], 4, "", 0⟩], 1, false, false⟩ 500 none
          ⟨"extra", [], 4, "", 0⟩).1 =
          some "GaylogHook: timeout , fail to process log entry") ∧
      ((none : Option Nat) = none →
        (fireT ⟨[⟨"q", [], 4, "", 0⟩], 1, false, false⟩ 500 none
          ⟨"extra", [], 4, "", 0⟩).1 = FireOutcomeT.droppedTimeout ∧
        (fireT ⟨[⟨"q", [], 4, "", 0⟩], 1, false, false⟩ 500 none
          ⟨"extra", [], 4, "", 0⟩).2 = ⟨[⟨"q", [], 4, "", 0⟩], 1, false, false⟩ ∧
        timeoutDiag (fireT ⟨[⟨"q", [], 4, "", 0⟩], 1, false, false⟩ 500 none
          ⟨"extra", [], 4, "", 0⟩).1 =
          some "GaylogHook: timeout , fail to process log entry")) :=
  fireT_wait_bounded_drop_on_timeout ⟨[⟨"q", [], 4, "", 0⟩], 1, false, false⟩ 500 none
    ⟨"extra", [], 4, "", 0⟩ rfl rfl (by decide) (by decide)

/-- Helper for C7: the worker processes the backlog entrywise. -/
theorem workerRun_eq_map (hook : Hook) (entries : List GEntry) :
    workerRun hook entries = entries.map (sendEntry hook) := by
  induction entries with
  | nil => rfl
  | cons e rest ih => rw [workerRun, ih, List.map_cons]

/-- C7: every returning path of Fire returns nil, whatever the writer
state (nil writer, failing transport) and the queue outcome; and the
worker's processing of each backlog entry is the pointwise sendEntry of
that entry — a failure on one entry cannot change the outcome of any
other. -/
theorem fire_nil_return_worker_unaffected (hook : Hook) (st : HookState)
    (e : GEntry) (entries : List GEntry)
    (hnp : (fire hook st e).outcome ≠ FireOutcome.panicked) :
    (fire hook st e).ret = some none ∧
    workerRun hook entries = entries.map (sendEntry hook) ∧
    (∀ i, (workerRun hook entries).get? i = (entries.get? i).map (sendEntry hook)) := by
  refine ⟨?_, workerRun_eq_map hook entries, ?_⟩
  · unfold fire at hnp ⊢
    by_cases hs : hook.synchronous = true
    · simp [hs]
    · by_cases hc : st.bufClosed = true
      · exact absurd (by simp [hs, hc]) hnp
      · by_cases hl : st.queue.length < st.capacity
        · simp [hs, hc, hl]
        · simp [hs, hc, hl]
  · intro i
    rw [workerRun_eq_map]
    simp [List.get?_eq_getElem?, List.getElem?_map]

/-- C7 (witness): a synchronous hook whose writer failed to construct
(nil writer): Fire still returns nil, and a two-entry backlog is
processed pointwise. -/
theorem fire_nil_return_worker_unaffected_witness :
    (fire (NewGraylogHookEx "bad" false [fun o => { o with compressType := 99 }] "h").1
        ⟨[], 8192, false⟩ ⟨"m", [], 4, "", 0⟩).ret = some none ∧
    workerRun (NewGraylogHookEx "bad" false [fun o => { o with compressType := 99 }] "h").1
        [⟨"a", [], 4, "", 0⟩, ⟨"b", [], 4, "", 0⟩]
      = [⟨"a", [], 4, "", 0⟩, ⟨"b", [], 4, "", 0⟩].map
          (sendEntry (NewGraylogHookEx "bad" false
            [fun o => { o with compressType := 99 }] "h").1) ∧
    (∀ i, (workerRun (NewGraylogHookEx "bad" false
          [fun o => { o with compressType := 99 }] "h").1
          [⟨"a", [], 4, "", 0⟩, ⟨"b", [], 4, "", 0⟩]).get? i
        = (([⟨"a", [], 4, "", 0⟩, ⟨"b", [], 4, "", 0⟩] : List GEntry).get? i).map
            (sendEntry (NewGraylogHookEx "bad" false
              [fun o => { o with compressType := 99 }] "h").1)) :=
  fire_nil_return_worker_unaffected
    (NewGraylogHookEx "bad" false [fun o => { o with compressType := 99 }] "h").1
    ⟨[], 8192, false⟩ ⟨"m", [], 4, "", 0⟩
    [⟨"a", [], 4, "", 0⟩, ⟨"b", [], 4, "", 0⟩] (by decide)

end Graylog

namespace Graylog

/-- C3 (counterexample): a hook whose configured Options.Blacklist
contains "secret" still renders the per-event field "secret" under
"_secret": the constructor never copies the configured blacklist into
the internal field sendEntry consults, so the field is not filtered. -/
theorem configured_blacklist_not_applied_cex :
    lookupMap (outcomeExtra (sendEntry
        (NewGraylogHook "127.0.0.1:12201"
          [fun o => { o with blacklist := fun k => k == "secret" }] "host").1
        ⟨"msg", [("secret", .str "s1")], 4, "", 0⟩)) (underscore "secret")
      = some (.str "s1") := by decide

/-- C3 (amended): sendEntry filters per-event fields against the hook's
internal blacklist field only, and only for names other than
"stacktrace": such a name in that map never reaches the extra fields
under its underscore form (provided no static extra field carries the
same name — static extras are never filtered), and a blacklisted error
field contributes no derived _stacktrace field either (provided neither
the static extras nor the event data carry a "stacktrace" field of
their own).  The name "stacktrace" is genuinely excluded: even when it
is blacklisted, a traced error field writes the derived stack-trace
entry unconditionally under the literal key _stacktrace — the underscore
form of the blacklisted name (last conjunct).  Moreover the constructors
leave the internal map empty, so hooks built through them filter
nothing. -/
theorem blacklist_filters_only_event_fields (b : String → Bool)
    (staticExtra data : List (String × GoValue)) (k : String)
    (file0 : String) (line0 : Int)
    (hb : b k = true)
    (hstatic : ∀ kv ∈ staticExtra, kv.1 ≠ k)
    (hnostk : k ≠ "stacktrace") :
    lookupMap (renderExtra b staticExtra data file0 line0).extra (underscore k) = none ∧
    (b errorKey = true → (∀ kv ∈ staticExtra, kv.1 ≠ "stacktrace") →
      (∀ kv ∈ data, kv.1 ≠ "stacktrace") →
      lookupMap (renderExtra b staticExtra data file0 line0).extra stackTraceKey = none) ∧
    (NewGraylogHookEx "addr" false [] "h").1.blacklist = (fun _ => false) ∧
    lookupMap (renderExtra (fun s => s == "stacktrace") []
        [("error", .goerr "boom" none (some ⟨[⟨"e.go", 7⟩]⟩))] "" 0).extra
        (underscore "stacktrace")
      = some (.str "e.go:7") := by
  refine ⟨?_, ?_, rfl, by decide⟩
  · simp only [renderExtra]
    rw [foldl_dataStep_preserve b data _ (underscore k)
      (by
        intro kv hkv
        refine ⟨?_, Or.inr (Or.inr (Or.inr (underscore_ne_stackTraceKey hnostk)))⟩
        by_cases hkk : kv.1 = k
        · exact Or.inl (hkk ▸ hb)
        · exact Or.inr (fun hu => hkk (underscore_inj hu)))]
    dsimp only
    rw [foldl_static_preserve staticExtra [] (underscore k)
      (fun kv hkv hu => hstatic kv hkv (underscore_inj hu))]
    rfl
  · intro hberr hs2 hd2
    simp only [renderExtra]
    rw [foldl_dataStep_preserve b data _ stackTraceKey
      (by
        intro kv hkv
        refine ⟨Or.inr (underscore_ne_stackTraceKey (hd2 kv hkv)), ?_⟩
        by_cases hkk : kv.1 = errorKey
        · exact Or.inl (hkk ▸ hberr)
        · exact Or.inr (Or.inl hkk))]
    dsimp only
    rw [foldl_static_preserve staticExtra [] stackTraceKey
      (fun kv hkv => underscore_ne_stackTraceKey (hs2 kv hkv))]
    rfl

/-- C3 (witness): the amended statement instantiated with an internal
blacklist containing "secret", one static extra and two event fields. -/
theorem blacklist_filters_only_event_fields_witness :
    lookupMap (renderExtra (fun s => s == "secret") [("host", .str "h")]
        [("secret", .str "v"), ("other", .num 1)] "" 0).extra (underscore "secret")
      = none ∧
    ((fun s => s == "secret") errorKey = true →
      (∀ kv ∈ [("host", GoValue.str "h")], kv.1 ≠ "stacktrace") →
      (∀ kv ∈ [("secret", GoValue.str "v"), ("other", GoValue.num 1)],
        kv.1 ≠ "stacktrace") →
      lookupMap (renderExtra (fun s => s == "secret") [("host", .str "h")]
        [("secret", .str "v"), ("other", .num 1)] "" 0).extra stackTraceKey = none) ∧
    (NewGraylogHookEx "addr" false [] "h").1.blacklist = (fun _ => false) ∧
    lookupMap (renderExtra (fun s => s == "stacktrace") []
        [("error", .goerr "boom" none (some ⟨[⟨"e.go", 7⟩]⟩))] "" 0).extra
        (underscore "stacktrace")
      = some (.str "e.go:7") :=
  blacklist_filters_only_event_fields (fun s => s == "secret")
    [("host", .str "h")] [("secret", .str "v"), ("other", .num 1)]
    "secret" "" 0 (by decide) (by decide) (by decide)

/-- C10 (counterexample): a field named "stacktrace" present in both the
static extras and the event data does not end up holding the per-event
value when the event also carries an error with an attached stack trace:
the derived _stacktrace write lands on the same rendered key after the
field's own write. -/
theorem stacktrace_collision_cex :
    lookupMap (renderExtra (fun _ => false) [("stacktrace", .str "w")]
        [("stacktrace", .str "v"),
         ("error", .goerr "boom" none (some ⟨[⟨"e.go", 7⟩]⟩))]
        "" 0).extra (underscore "stacktrace") ≠ some (.str "v") := by decide

/-- C10 (amended): for every field name that is in both the static
extras and the event data, is not blacklisted (per the map sendEntry
consults), is not the error key and is not "stacktrace" (whose rendered
key can be overwritten by the derived stack-trace field), the rendered
underscore-prefixed extra field holds the per-event value: static extras
are merged first and the per-event write lands second on the same key. -/
theorem event_field_overrides_static_extra (b : String → Bool)
    (staticExtra data : List (String × GoValue)) (k : String) (v : GoValue)
    (file0 : String) (line0 : Int)
    (hb : b k = false) (hkerr : k ≠ errorKey) (hkstk : k ≠ "stacktrace")
    (hnodup : (data.map Prod.fst).Nodup)
    (hmem : (k, v) ∈ data)
    (hstatic : ∃ kv ∈ staticExtra, kv.1 = k) :
    lookupMap (renderExtra b staticExtra data file0 line0).extra (underscore k)
      = some v := by
  obtain ⟨l1, l2, rfl⟩ := List.append_of_mem hmem
  have hknotin : ∀ p ∈ l2, p.1 ≠ k := by
    intro p hp hpk
    have hmap := hnodup
    rw [List.map_append, List.map_cons] at hmap
    have hcons : ((k, v).1 :: l2.map Prod.fst).Nodup :=
      List.Nodup.of_append_right hmap
    have hm1 : p.1 ∈ l2.map Prod.fst := List.mem_map_of_mem Prod.fst hp
    rw [hpk] at hm1
    exact (List.nodup_cons.1 hcons).1 hm1
  simp only [renderExtra]
  rw [foldl_dataStep_split b l1 l2 _ (k, v) (underscore k)
    (by
      intro p hp
      exact ⟨Or.inr (fun hu => hknotin p hp (underscore_inj hu)),
        Or.inr (Or.inr (Or.inr (underscore_ne_stackTraceKey hkstk)))⟩)]
  exact dataStep_lookup_self b _ k v hb hkerr

/-- C10 (witness): the amended statement at a concrete hook
configuration where "x" is both a static extra and an event field. -/
theorem event_field_overrides_static_extra_witness :
    lookupMap (renderExtra (fun _ => false) [("x", .str "s")]
        [("x", .str "d"), ("y", .num 2)] "" 0).extra (underscore "x")
      = some (.str "d") :=
  event_field_overrides_static_extra (fun _ => false) [("x", .str "s")]
    [("x", .str "d"), ("y", .num 2)] "x" (.str "d") "" 0
    (by decide) (by decide) (by decide) (by decide) (by decide) (by decide)

/-- C6 (counterexample): an error value without MarshalJSON under a
field named "failure" is stored raw, and its JSON is the empty object of
Go struct marshalling, not the JSON string of its message — the
enrichment applies only to the field named "error". -/
theorem error_enrichment_only_error_key_cex :
    lookupMap (renderExtra (fun _ => false) []
        [("failure", .goerr "boom" none none)] "" 0).extra (underscore "failure")
      = some (.goerr "boom" none none) ∧
    jsonOfValue (.goerr "boom" none none) ≠ jsonStringLit "boom" := by
  constructor <;> decide

/-- C6 (amended): for the field named logrus.ErrorKey ("error") whose
value is an error lacking MarshalJSON, sendEntry stores the
marshalableError wrapper under "_error", and the wrapper's MarshalJSON
output is exactly the JSON string of the error's textual message. -/
theorem error_field_enriched_under_error_key (b : String → Bool)
    (staticExtra data : List (String × GoValue)) (msg : String)
    (tr : Option StackTrace) (file0 : String) (line0 : Int)
    (hb : b errorKey = false)
    (hnodup : (data.map Prod.fst).Nodup)
    (hmem : (errorKey, GoValue.goerr msg none tr) ∈ data) :
    lookupMap (renderExtra b staticExtra data file0 line0).extra (underscore errorKey)
      = some (.wrappedErr msg) ∧
    jsonOfValue (.wrappedErr msg) = jsonStringLit msg := by
  constructor
  · obtain ⟨l1, l2, rfl⟩ := List.append_of_mem hmem
    have hknotin : ∀ p ∈ l2, p.1 ≠ errorKey := by
      intro p hp hpk
      have hmap := hnodup
      rw [List.map_append, List.map_cons] at hmap
      have hcons : ((errorKey, GoValue.goerr msg none tr).1 :: l2.map Prod.fst).Nodup :=
        List.Nodup.of_append_right hmap
      have hm1 : p.1 ∈ l2.map Prod.fst := List.mem_map_of_mem Prod.fst hp
      rw [hpk] at hm1
      exact (List.nodup_cons.1 hcons).1 hm1
    simp only [renderExtra]
    rw [foldl_dataStep_split b l1 l2 _ (errorKey, GoValue.goerr msg none tr)
      (underscore errorKey)
      (by
        intro p hp
        exact ⟨Or.inr (fun hu => hknotin p hp (underscore_inj hu)),
          Or.inr (Or.inl (hknotin p hp))⟩)]
    exact dataStep_error_lookup b _ msg tr hb
  · rfl

/-- C6 (witness): the amended statement for the entry logged via
WithError(errors.New("boom")). -/
theorem error_field_enriched_under_error_key_witness :
    lookupMap (renderExtra (fun _ => false) []
        [(errorKey, GoValue.goerr "boom" none none)] "" 0).extra
        (underscore errorKey)
      = some (.wrappedErr "boom") ∧
    jsonOfValue (.wrappedErr "boom") = jsonStringLit "boom" :=
  error_field_enriched_under_error_key (fun _ => false) []
    [(errorKey, GoValue.goerr "boom" none none)] "boom" none "" 0
    (by decide) (by decide) (by decide)

end Graylog

namespace Graylog

/-- Helper for C4: on the two-element cyclic cause chain the loop body
alternates between the two errors and never reaches the break. -/
theorem extractLoop_cyclic_none :
    ∀ fuel e t, (e = 0 ∨ e = 1) → extractLoop cyclicWorld e t fuel = none := by
  intro fuel
  induction fuel with
  | zero => intro e t _; rfl
  | succ n ih =>
      intro e t he
      cases he with
      | inl h0 =>
          subst h0
          exact ih 1 t (Or.inr rfl)
      | inr h1 =>
          subst h1
          exact ih 0 t (Or.inl rfl)

/-- C4 (counterexample): on an error whose cause relation is cyclic the
walk of extractStackTrace never terminates — there is no iteration
budget under which the loop reaches its break. -/
theorem extractStackTrace_cyclic_diverges_cex :
    ¬ ∃ fuel r, extractStackTraceFuel cyclicWorld 0 fuel = some r := by
  rintro ⟨fuel, r, hsome⟩
  rw [extractStackTraceFuel, extractLoop_cyclic_none fuel 0 none (Or.inl rfl)] at hsome
  cases hsome

/-- Helper for C4: one unfolding of the loop body. -/
theorem extractLoop_succ (w : List ErrNode) (e : Nat) (t : Option Nat) (fuel : Nat) :
    extractLoop w e t (fuel + 1) =
      match (w.getD e ⟨false, none⟩).cause with
      | some c =>
          extractLoop w c
            (if (w.getD e ⟨false, none⟩).hasStack then some e else t) fuel
      | none => some (if (w.getD e ⟨false, none⟩).hasStack then some e else t) := rfl

/-- Helper for C4: when the cause chain ends within n steps, the loop
breaks within n+1 iterations, whatever tracer it carries. -/
theorem extractLoop_ends_isSome (w : List ErrNode) :
    ∀ n e t, endsWithin w e n = true → (extractLoop w e t (n + 1)).isSome = true := by
  intro n
  induction n with
  | zero =>
      intro e t hend
      have hc : (w.getD e ⟨false, none⟩).cause = none := by
        cases hcc : causeStep w e with
        | none => exact hcc
        | some c => simp [endsWithin, hcc] at hend
      rw [extractLoop_succ, hc]
      rfl
  | succ n ih =>
      intro e t hend
      cases hc : causeStep w e with
      | none =>
          have hc2 : (w.getD e ⟨false, none⟩).cause = none := hc
          rw [extractLoop_succ, hc2]
          rfl
      | some c =>
          have hend' : endsWithin w c n = true := by
            simpa [endsWithin, hc] using hend
          have hc2 : (w.getD e ⟨false, none⟩).cause = some c := hc
          rw [extractLoop_succ, hc2]
          exact ih c _ hend'

/-- C4 (amended): extractStackTrace's cause-chain walk carries no
iteration bound: it terminates on every error whose cause chain ends
after finitely many Cause steps, but a cyclic cause chain makes the loop
run forever. -/
theorem extractStackTrace_terminates_on_finite_chains (w : List ErrNode)
    (e : Nat) (n : Nat) (h : endsWithin w e n = true) :
    (extractStackTraceFuel w e (n + 1)).isSome = true :=
  extractLoop_ends_isSome w n e none h

/-- C4 (witness): a single error with a stack trace and no cause: its
chain ends immediately and one iteration suffices. -/
theorem extractStackTrace_terminates_on_finite_chains_witness :
    endsWithin [⟨true, none⟩] 0 0 = true ∧
    (extractStackTraceFuel [⟨true, none⟩] 0 1).isSome = true :=
  ⟨by decide, extractStackTrace_terminates_on_finite_chains [⟨true, none⟩] 0 0 (by decide)⟩

/-- C5 (counterexample): constructing a hook with the unknown
compression variant 99 does not surface an error to the caller: the
constructor still returns a hook — with a nil writer, having logged one
diagnostic — and every message sent through it is dropped with a
per-message diagnostic. -/
theorem unknown_compression_hook_cex :
    (NewGraylogHookEx "127.0.0.1:12201" false
        [fun o => { o with compressType := 99 }] "host").1.gelfLogger = none ∧
    (NewGraylogHookEx "127.0.0.1:12201" false
        [fun o => { o with compressType := 99 }] "host").2
      = ["Can't create Gelf logger"] ∧
    sendEntry (NewGraylogHookEx "127.0.0.1:12201" false
        [fun o => { o with compressType := 99 }] "host").1 ⟨"m", [], 4, "", 0⟩
      = SendOutcome.droppedNoWriter "Can't connect to Graylog" := by
  refine ⟨?_, ?_, ?_⟩ <;> decide

/-- C5 (amended): an unknown compression variant is rejected with an
error immediately by newCompressionPool and by the writer constructor;
NewGraylogHookEx, however, does not propagate that error to its caller —
it logs it once and still returns a hook whose writer is nil, and every
sendEntry on that hook prints a diagnostic and drops the message. -/
theorem unknown_compression_fatal_at_pool_not_hook (t level : Int)
    (addr host : String) (isAsync : Bool)
    (h : ¬(t = CompressGzip ∨ t = CompressZlib ∨ t = NoCompress)) :
    newCompressionPool t level
      = Except.error ("unknown compression type " ++ toString t) ∧
    NewWriter addr t level
      = Except.error ("unknown compression type " ++ toString t) ∧
    (NewGraylogHookEx addr isAsync
        [fun o => { o with compressType := t, compressLevel := level }] host).1.gelfLogger
      = none ∧
    (NewGraylogHookEx addr isAsync
        [fun o => { o with compressType := t, compressLevel := level }] host).2
      = ["Can't create Gelf logger"] ∧
    (∀ e, sendEntry (NewGraylogHookEx addr isAsync
        [fun o => { o with compressType := t, compressLevel := level }] host).1 e
      = SendOutcome.droppedNoWriter "Can't connect to Graylog") := by
  have hp : newCompressionPool t level
      = Except.error ("unknown compression type " ++ toString t) := by
    unfold newCompressionPool
    rw [if_neg h]
  have hw : NewWriter addr t level
      = Except.error ("unknown compression type " ++ toString t) := by
    unfold NewWriter
    rw [hp]
    rfl
  have hmain : NewGraylogHookEx addr isAsync
      [fun o => { o with compressType := t, compressLevel := level }] host
    = (⟨{ getDefaultGraylogOptions host with compressType := t, compressLevel := level },
        none, !isAsync, fun _ => false⟩, ["Can't create Gelf logger"]) := by
    unfold NewGraylogHookEx
    dsimp only [List.foldl_cons, List.foldl_nil]
    rw [hw]
  refine ⟨hp, hw, ?_, ?_, ?_⟩
  · rw [hmain]
  · rw [hmain]
  · intro e
    rw [hmain]
    rfl

/-- C5 (witness): the amended statement at variant 99. -/
theorem unknown_compression_fatal_at_pool_not_hook_witness :
    newCompressionPool 99 1
      = Except.error ("unknown compression type " ++ toString (99 : Int)) ∧
    NewWriter "127.0.0.1:12201" 99 1
      = Except.error ("unknown compression type " ++ toString (99 : Int)) ∧
    (NewGraylogHookEx "127.0.0.1:12201" false
        [fun o => { o with compressType := 99, compressLevel := 1 }] "host").1.gelfLogger
      = none ∧
    (NewGraylogHookEx "127.0.0.1:12201" false
        [fun o => { o with compressType := 99, compressLevel := 1 }] "host").2
      = ["Can't create Gelf logger"] ∧
    (∀ e, sendEntry (NewGraylogHookEx "127.0.0.1:12201" false
        [fun o => { o with compressType := 99, compressLevel := 1 }] "host").1 e
      = SendOutcome.droppedNoWriter "Can't connect to Graylog") :=
  unknown_compression_fatal_at_pool_not_hook 99 1 "127.0.0.1:12201" "host" false
    (by decide)

/-- C8: Fire copies the caller's field map into a fresh map before
enqueueing: the caller's map is unchanged by the hook, the copy holds
exactly the same bindings, and a mutation of the caller's map after Fire
returns leaves the enqueued map untouched. -/
theorem fire_clones_entry_data (h : Heap) (src fresh : Nat)
    (m2 : List (String × GoValue))
    (hne : fresh ≠ src)
    (hnodup : ((h src).map Prod.fst).Nodup) :
    (fireCloneHeap h src fresh).1 src = h src ∧
    (∀ k, lookupMap ((fireCloneHeap h src fresh).1 (fireCloneHeap h src fresh).2) k
      = lookupMap (h src) k) ∧
    heapSet (fireCloneHeap h src fresh).1 src m2 (fireCloneHeap h src fresh).2
      = (fireCloneHeap h src fresh).1 (fireCloneHeap h src fresh).2 := by
  have hsf : src ≠ fresh := fun hh => hne hh.symm
  refine ⟨?_, ?_, ?_⟩
  · show heapSet h fresh (cloneAssoc (h src)) src = h src
    simp [heapSet, hsf]
  · intro k
    show lookupMap (heapSet h fresh (cloneAssoc (h src)) fresh) k = lookupMap (h src) k
    simp only [heapSet, if_pos rfl]
    exact lookup_cloneAssoc _ k hnodup
  · show heapSet (heapSet h fresh (cloneAssoc (h src))) src m2 fresh
      = heapSet h fresh (cloneAssoc (h src)) fresh
    simp [heapSet, hne]

/-- C8 (witness): a one-binding caller map at address 0, the clone at
the fresh address 1, and a subsequent overwrite of the caller's map. -/
theorem fire_clones_entry_data_witness :
    (fireCloneHeap ((fun _ => [("a", GoValue.str "1")]) : Heap) 0 1).1 0
      = ((fun _ => [("a", GoValue.str "1")]) : Heap) 0 ∧
    (∀ k, lookupMap ((fireCloneHeap ((fun _ => [("a", GoValue.str "1")]) : Heap) 0 1).1
        (fireCloneHeap ((fun _ => [("a", GoValue.str "1")]) : Heap) 0 1).2) k
      = lookupMap (((fun _ => [("a", GoValue.str "1")]) : Heap) 0) k) ∧
    heapSet (fireCloneHeap ((fun _ => [("a", GoValue.str "1")]) : Heap) 0 1).1 0
        [("a", GoValue.str "2")]
        (fireCloneHeap ((fun _ => [("a", GoValue.str "1")]) : Heap) 0 1).2
      = (fireCloneHeap ((fun _ => [("a", GoValue.str "1")]) : Heap) 0 1).1
        (fireCloneHeap ((fun _ => [("a", GoValue.str "1")]) : Heap) 0 1).2 :=
  fire_clones_entry_data ((fun _ => [("a", GoValue.str "1")]) : Heap) 0 1
    [("a", GoValue.str "2")] (by decide) (by decide)

end Graylog
